import Mathlib

/-!
Verification of the skeletal-animation core of `poser` (src/Main.cpp).

The embedding models 4x4 float matrices as exact rational matrices
(`Matrix (Fin 4) (Fin 4) ℚ`): the claims under study are structural
(composition order, hierarchy accumulation, indexing, control flow) and
do not depend on rounding.  Fallible operations of the source
(`std::vector::at`, `%` by zero, unchecked array reads) are modelled with
`Option` / an explicit failure constructor.
-/

namespace Poser

abbrev Mat4 := Matrix (Fin 4) (Fin 4) ℚ

abbrev Vec3 := ℚ × ℚ × ℚ

/-- Quaternion as stored by the importer: (w, x, y, z). -/
structure Quat where
  w : ℚ
  x : ℚ
  y : ℚ
  z : ℚ
deriving DecidableEq

/-- `glm::translate(glm::mat4(1.0f), v)`: identity with `v` in the last column. -/
def translateMat (v : Vec3) : Mat4 :=
  !![1, 0, 0, v.1;
     0, 1, 0, v.2.1;
     0, 0, 1, v.2.2;
     0, 0, 0, 1]

/-- `glm::scale(glm::mat4(1.0f), v)`: diagonal scale matrix. -/
def scaleMat (v : Vec3) : Mat4 :=
  !![v.1, 0, 0, 0;
     0, v.2.1, 0, 0;
     0, 0, v.2.2, 0;
     0, 0, 0, 1]

/-- `glm::toMat4(glm::quat(w, x, y, z))`: the standard unit-quaternion
rotation matrix (row/column convention converted from glm's column-major
storage to row-indexed-first `Matrix`). -/
def quatToMat4 (q : Quat) : Mat4 :=
  !![1 - 2*(q.y*q.y + q.z*q.z), 2*(q.x*q.y - q.w*q.z), 2*(q.x*q.z + q.w*q.y), 0;
     2*(q.x*q.y + q.w*q.z), 1 - 2*(q.x*q.x + q.z*q.z), 2*(q.y*q.z - q.w*q.x), 0;
     2*(q.x*q.z - q.w*q.y), 2*(q.y*q.z + q.w*q.x), 1 - 2*(q.x*q.x + q.y*q.y), 0;
     0, 0, 0, 1]

/-- `assimpToGlmMat4`: convert row-major (assimp) to column-major (glm)
by transposition. -/
def assimpToGlmMat4 (m : Mat4) : Mat4 := m.transpose

/-! ## Imported scene data (the relevant fields of the assimp structures) -/

/-- `aiVertexWeight`. -/
structure AiVertexWeight where
  mVertexId : Nat
  mWeight : ℚ
deriving DecidableEq

/-- `aiBone` (name, offset matrix, per-vertex weights). -/
structure AiBone where
  mName : String
  mOffsetMatrix : Mat4
  mWeights : List AiVertexWeight

/-- `aiVectorKey` (the source reads only `mValue`). -/
structure AiVectorKey where
  mTime : ℚ
  mValue : Vec3

/-- `aiQuatKey` (the source reads only `mValue`). -/
structure AiQuatKey where
  mTime : ℚ
  mValue : Quat

/-- `aiNodeAnim`: one animation channel. -/
structure AiNodeAnim where
  mNodeName : String
  mPositionKeys : List AiVectorKey
  mRotationKeys : List AiQuatKey
  mScalingKeys : List AiVectorKey

/-- `aiAnimation`. -/
structure AiAnimation where
  mChannels : List AiNodeAnim

/-- `aiNode`: a named node with children. -/
inductive AiNode where
  | mk (mName : String) (mChildren : List AiNode)

def AiNode.mName : AiNode → String
  | .mk n _ => n

def AiNode.mChildren : AiNode → List AiNode
  | .mk _ c => c

/-- `aiMesh` (the fields the source reads). -/
structure AiMesh where
  mVertices : List Vec3
  mNormals : List Vec3
  mFaces : List (List Nat)
  mBones : List AiBone

/-- `aiScene` (the fields the source reads). -/
structure AiScene where
  mMeshes : List AiMesh
  mAnimations : List AiAnimation
  mRootNode : AiNode

/-! ## Program data model -/

/-- `Vertex` (Main.cpp): position, normal, 4 bone-id slots, 4 weight slots. -/
structure Vertex where
  position : Vec3
  normal : Vec3
  boneIds : Fin 4 → Int
  boneWeights : Fin 4 → ℚ

/-- `Bone` (Main.cpp).  The parent pointer (`Bone*` into the `bones`
vector) is modelled as an optional index into the same list. -/
structure Bone where
  inverseBindMatrix : Mat4
  posedTransform : Mat4
  translationKeyframes : List Mat4
  rotationKeyframes : List Mat4
  scaleKeyframes : List Mat4
  parent : Option Nat

/-- Generic in-place element modification (no-op when the index is out of
range; the source's accesses at these spots are within `bones.at`-checked
bounds in all runs the theorems consider). -/
def modifyAt : List α → Nat → (α → α) → List α
  | [], _, _ => []
  | a :: as, 0, f => f a :: as
  | a :: as, n + 1, f => a :: modifyAt as n f

/-! ## findNamedBone -/

/-- Loop body of `findNamedBone`: scan `mesh->mBones` from index `i`. -/
def findNamedBoneAux (name : String) : Nat → List AiBone → Int
  | _, [] => -1
  | i, b :: bs => if b.mName = name then (i : Int) else findNamedBoneAux name (i + 1) bs

/-- `findNamedBone` (Main.cpp): index of the first mesh bone with the
given name, `-1` when there is none. -/
def findNamedBone (mesh : List AiBone) (name : String) : Int :=
  findNamedBoneAux name 0 mesh

/-! ## Skeleton builder (loadSkeletonNode) -/

/-- Set a bone's parent (the `bone.parent = parent` write). -/
def setParent (bones : List Bone) (j : Nat) (p : Option Nat) : List Bone :=
  modifyAt bones j (fun b => { b with parent := p })

mutual

/-- `loadSkeletonNode` (Main.cpp): depth-first walk carrying the most
recent bone ancestor. -/
def loadSkeletonNode (mesh : List AiBone) : AiNode → Option Nat → List Bone → List Bone
  | .mk name children, parent, bones =>
    let boneIndex := findNamedBone mesh name
    if 0 ≤ boneIndex then
      loadSkeletonNodes mesh children (some boneIndex.toNat) (setParent bones boneIndex.toNat parent)
    else
      loadSkeletonNodes mesh children parent bones

/-- The `for` loop over `node->mChildren`. -/
def loadSkeletonNodes (mesh : List AiBone) : List AiNode → Option Nat → List Bone → List Bone
  | [], _, bones => bones
  | n :: ns, parent, bones => loadSkeletonNodes mesh ns parent (loadSkeletonNode mesh n parent bones)

end

/-! ## Vertex skin-weight assigner -/

/-- The slot scan of Main.cpp lines 284-292:
`element = 0; while (element < 3) { if (boneIds[element] < 0) break; ++element; }`.
Returns the first index `< 3` holding the unset sentinel (a negative id),
or `3` when slots 0..2 are all populated — slot 3 is used without a check. -/
def scanSlot (ids : Fin 4 → Int) (element : Nat) : Nat :=
  if h : element < 3 then
    if ids ⟨element, by omega⟩ < 0 then element else scanSlot ids (element + 1)
  else element
termination_by 3 - element

/-- Write into one of the 4 slots of a `glm::ivec4`/`glm::vec4` by integer
index (the index is provably ≤ 3 whenever the source performs the write). -/
def writeSlot (f : Fin 4 → α) (e : Nat) (a : α) : Fin 4 → α :=
  fun k => if k.val = e then a else f k

/-- The body of the weight loop (Main.cpp lines 278-297) for a single
`aiVertexWeight` of bone `i`. -/
def assignVertexWeight (i : Nat) (w : AiVertexWeight) (verts : List Vertex) : List Vertex :=
  modifyAt verts w.mVertexId fun v =>
    let element := scanSlot v.boneIds 0
    { v with boneIds := writeSlot v.boneIds element (Int.ofNat i)
             boneWeights := writeSlot v.boneWeights element w.mWeight }

/-- The nested bone/weight loops of Main.cpp lines 270-298 (the part that
populates vertex bone ids and weights; the inverse bind matrices of the
same loop are loaded by `loadBones`). -/
def assignBoneWeights (meshBones : List AiBone) (verts : List Vertex) : List Vertex :=
  meshBones.enum.foldl
    (fun vs iw => iw.2.mWeights.foldl (fun vs' w => assignVertexWeight iw.1 w vs') vs)
    verts

/-- Vertex loading (Main.cpp lines 244-265): positions and normals from
the mesh, bone ids initialized to -1 and weights to 0. -/
def loadVertices (mesh : AiMesh) : List Vertex :=
  (List.range mesh.mVertices.length).map fun i =>
    { position := mesh.mVertices.getD i (0, 0, 0)
      normal := mesh.mNormals.getD i (0, 0, 0)
      boneIds := fun _ => -1
      boneWeights := fun _ => 0 }

/-- Index loading (Main.cpp lines 233-242): three indices per face. -/
def loadIndices (mesh : AiMesh) : List Nat :=
  mesh.mFaces.foldr (fun f acc => f.getD 0 0 :: f.getD 1 0 :: f.getD 2 0 :: acc) []

/-! ## Bone and keyframe loading -/

/-- A `Bone` as produced by `bones.resize(...)`: value-initialization
leaves the keyframe vectors empty and the parent pointer null (the glm
matrices are uninitialized in the source; the model uses the identity,
no claim depends on them before they are overwritten). -/
def initBone : Bone :=
  { inverseBindMatrix := 1
    posedTransform := 1
    translationKeyframes := []
    rotationKeyframes := []
    scaleKeyframes := []
    parent := none }

/-- Bone array creation (Main.cpp lines 268-275): resize plus the
per-bone inverse bind matrix store. -/
def loadBones (meshBones : List AiBone) : List Bone :=
  meshBones.map fun bi => { initBone with inverseBindMatrix := assimpToGlmMat4 bi.mOffsetMatrix }

/-- One iteration of the channel loop (Main.cpp lines 306-347): skip a
channel naming no mesh bone, otherwise fill that bone's three keyframe
matrix sequences from the channel's key lists. -/
def bindChannel (mesh : List AiBone) (bones : List Bone) (ch : AiNodeAnim) : List Bone :=
  let boneIndex := findNamedBone mesh ch.mNodeName
  if boneIndex < 0 then bones
  else
    modifyAt bones boneIndex.toNat fun b =>
      { b with
        translationKeyframes := ch.mPositionKeys.map fun k => translateMat k.mValue
        rotationKeyframes := ch.mRotationKeys.map fun k => quatToMat4 k.mValue
        scaleKeyframes := ch.mScalingKeys.map fun k => scaleMat k.mValue }

/-- The channel loop over `animation->mChannels`. -/
def loadChannels (mesh : List AiBone) (channels : List AiNodeAnim) (bones : List Bone) : List Bone :=
  channels.foldl (bindChannel mesh) bones

/-- The bone data at the end of loading: resize, channel binding, then
the skeleton hierarchy walk from the scene root. -/
def loadedBones (meshBones : List AiBone) (channels : List AiNodeAnim) (root : AiNode) : List Bone :=
  loadSkeletonNode meshBones root none (loadChannels meshBones channels (loadBones meshBones))

/-! ## Whole load phase (Main.cpp lines 214-352) -/

/-- Outcome of the load phase after `importer.ReadFile`. -/
inductive LoadResult where
  | exitFailure (msg : String)
  | undefinedAccess
  | ok (verts : List Vertex) (inds : List Nat) (bones : List Bone)

def LoadResult.isExitFailure : LoadResult → Bool
  | .exitFailure _ => true
  | _ => false

/-- The load phase.  `imported` is the `ReadFile` result (`none` models a
null scene), `errorString` the importer's `GetErrorString()`.
On a null scene the program prints the diagnostic and returns
`EXIT_FAILURE`.  A present scene with no mesh skips the mesh block (the
`mNumMeshes > 0` check) but still runs the animation block and the
skeleton walk, both of which dereference the absent first mesh through
`findNamedBone` (or the absent first animation through
`mAnimations[0]`): modelled as `undefinedAccess`.  A scene with no
animation reaches the unchecked `mAnimations[0]` read: `undefinedAccess`. -/
def loadModel (imported : Option AiScene) (errorString : String) : LoadResult :=
  match imported with
  | none => .exitFailure ("Failed to load model:\n" ++ errorString)
  | some scene =>
    match scene.mMeshes.head? with
    | none => .undefinedAccess
    | some mesh =>
      let inds := loadIndices mesh
      let verts := assignBoneWeights mesh.mBones (loadVertices mesh)
      match scene.mAnimations.head? with
      | none => .undefinedAccess
      | some anim => .ok verts inds (loadedBones mesh.mBones anim.mChannels scene.mRootNode)

/-! ## Pose evaluation (updateAnimation) -/

/-- `keyframes.at(frameIndex % keyframes.size())`: fails on an empty
sequence (the source's `% 0` is undefined). -/
def keyAt (keys : List Mat4) (frame : Nat) : Option Mat4 :=
  if h : keys.length = 0 then none
  else some (keys.get ⟨frame % keys.length, Nat.mod_lt _ (Nat.pos_of_ne_zero h)⟩)

/-- First loop of `updateAnimation` (lines 110-119): recompute every
bone's local posed transform as `translation * rotation * scale`. -/
def updateLocalPoses (frame : Nat) : List Bone → Option (List Bone)
  | [] => some []
  | b :: bs => do
    let t ← keyAt b.translationKeyframes frame
    let r ← keyAt b.rotationKeyframes frame
    let s ← keyAt b.scaleKeyframes frame
    let rest ← updateLocalPoses frame bs
    pure ({ b with posedTransform := t * r * s } :: rest)

/-- The stored local posed transform of bone `j` (identity default for an
out-of-range index, which no considered run produces). -/
def posedOf (bones : List Bone) (j : Nat) : Mat4 :=
  ((bones.get? j).map Bone.posedTransform).getD 1

/-- Dereference bone `j`'s parent pointer. -/
def parentOf (bones : List Bone) (j : Nat) : Option Nat :=
  (bones.get? j).bind Bone.parent

/-- The `while (parent)` accumulation (lines 130-135), with explicit fuel
(the source loop terminates exactly when the parent chain is acyclic). -/
def chainWalk (bones : List Bone) : Nat → Option Nat → Mat4 → Mat4
  | 0, _, acc => acc
  | _ + 1, none, acc => acc
  | fuel + 1, some j, acc => chainWalk bones fuel (parentOf bones j) (posedOf bones j * acc)

/-- Whether the parent chain starting at `p` reaches a root within `fuel`
steps (the acyclicity of the bone forest bounds every chain by the number
of bones). -/
def chainTerminates (bones : List Bone) : Nat → Option Nat → Bool
  | _, none => true
  | 0, some _ => false
  | fuel + 1, some j => chainTerminates bones fuel (parentOf bones j)

/-- The model-space posed transform of bone `i` (lines 127-136): the
local posed transform left-multiplied by every ancestor's. -/
def modelTransform (bones : List Bone) (i : Nat) : Mat4 :=
  chainWalk bones bones.length (parentOf bones i) (posedOf bones i)

/-- `updateAnimation` (Main.cpp lines 107-142): recompute local poses,
then fill the bone-transforms array with
`modelTransform * inverseBindMatrix` per bone. -/
def updateAnimation (frame : Nat) (bones : List Bone) : Option (List Bone × List Mat4) := do
  let bones' ← updateLocalPoses frame bones
  pure (bones', (List.range bones'.length).map fun i =>
    modelTransform bones' i * ((bones'.get? i).map Bone.inverseBindMatrix).getD 1)

/-! ## Spec-side notions used to state the claims -/

mutual

/-- Number of nodes named `t` in the tree (reachability of a name from
the root is `0 < countName`). -/
def countName : AiNode → String → Nat
  | .mk name children, t => (if name = t then 1 else 0) + countNameList children t

def countNameList : List AiNode → String → Nat
  | [], _ => 0
  | n :: ns, t => countName n t + countNameList ns t

end

mutual

/-- Spec §4.1: the parent the depth-first walk assigns to the node named
`target` — the nearest named-bone ancestor carried into that node
(`some p` when a node named `target` exists in the subtree, `none`
otherwise).  Non-bone nodes leave the carried ancestor unchanged. -/
def nearestBoneAncestor (mesh : List AiBone) : AiNode → Option Nat → String → Option (Option Nat)
  | .mk name children, anc, target =>
    if name = target then some anc
    else
      let bi := findNamedBone mesh name
      let anc' := if 0 ≤ bi then some bi.toNat else anc
      nearestBoneAncestorList mesh children anc' target

def nearestBoneAncestorList (mesh : List AiBone) : List AiNode → Option Nat → String → Option (Option Nat)
  | [], _, _ => none
  | n :: ns, anc, target =>
    match nearestBoneAncestor mesh n anc target with
    | some p => some p
    | none => nearestBoneAncestorList mesh ns anc target

end

/-- The parent field of bone `i`, when bone `i` exists. -/
def getParent? (bones : List Bone) (i : Nat) : Option (Option Nat) :=
  (bones.get? i).map Bone.parent

/-- All (bone index, vertex weight) pairs of the mesh in processing
order (the flattening of the two nested loops of the weight assigner). -/
def boneWeightTriples (meshBones : List AiBone) : List (Nat × AiVertexWeight) :=
  meshBones.enum.foldr (fun iw acc => (iw.2.mWeights.map fun w => (iw.1, w)) ++ acc) []

/-- The (bone index, weight) pairs a list of triples contributes to
vertex `v`, in order. -/
def influencesOfList : List (Nat × AiVertexWeight) → Nat → List (Nat × ℚ)
  | [], _ => []
  | t :: ts, v =>
    if t.2.mVertexId = v then (t.1, t.2.mWeight) :: influencesOfList ts v
    else influencesOfList ts v

/-- The (bone index, weight) pairs the mesh contributes to vertex `v`,
in processing order. -/
def influencesOn (meshBones : List AiBone) (v : Nat) : List (Nat × ℚ) :=
  influencesOfList (boneWeightTriples meshBones) v

/-- The slots of a vertex hold exactly the influence list `xs`, filled
left to right in order; every remaining slot holds the sentinel -1 and
weight 0. -/
def slotsMatch (xs : List (Nat × ℚ)) (v : Vertex) : Prop :=
  ∀ e : Fin 4,
    (∀ pr : Nat × ℚ, xs.get? e.val = some pr →
      v.boneIds e = Int.ofNat pr.1 ∧ v.boneWeights e = pr.2) ∧
    (xs.get? e.val = none → v.boneIds e = -1 ∧ v.boneWeights e = 0)

/-! ## Helper lemmas -/

theorem modifyAt_length (l : List α) (n : Nat) (f : α → α) : (modifyAt l n f).length = l.length := by
  induction l generalizing n with
  | nil => rfl
  | cons a as ih =>
    cases n with
    | zero => rfl
    | succ n => simp [modifyAt, ih]

theorem modifyAt_get?_ne (l : List α) (n k : Nat) (f : α → α) (h : k ≠ n) :
    (modifyAt l n f).get? k = l.get? k := by
  induction l generalizing n k with
  | nil => rfl
  | cons a as ih =>
    cases n with
    | zero =>
      cases k with
      | zero => exact absurd rfl h
      | succ k => rfl
    | succ n =>
      cases k with
      | zero => rfl
      | succ k => simpa [modifyAt] using ih n k (by omega)

theorem modifyAt_get?_eq (l : List α) (n : Nat) (f : α → α) :
    (modifyAt l n f).get? n = (l.get? n).map f := by
  induction l generalizing n with
  | nil => rfl
  | cons a as ih =>
    cases n with
    | zero => rfl
    | succ n => simpa [modifyAt] using ih n

theorem keyAt_eq_getD (keys : List Mat4) (frame : Nat) (h : keys.length ≠ 0) :
    keyAt keys frame = some (keys.getD (frame % keys.length) 1) := by
  rw [keyAt, dif_neg h]
  congr 1
  rw [List.getD_eq_getElem?_getD, List.getElem?_eq_getElem (Nat.mod_lt _ (Nat.pos_of_ne_zero h))]
  simp [List.get_eq_getElem]

theorem keyAt_add_length (keys : List Mat4) (frame L : Nat) (hL : keys.length = L) :
    keyAt keys (frame + L) = keyAt keys frame := by
  subst hL
  by_cases h : keys.length = 0
  · rw [keyAt, dif_pos h, keyAt, dif_pos h]
  · rw [keyAt_eq_getD _ _ h, keyAt_eq_getD _ _ h, Nat.add_mod_right]

theorem updateLocalPoses_get? (frame : Nat) (bones bones' : List Bone)
    (hup : updateLocalPoses frame bones = some bones') (i : Nat) (b : Bone)
    (hb : bones.get? i = some b) :
    bones'.get? i = some { b with posedTransform := b.translationKeyframes.getD (frame % b.translationKeyframes.length) 1 * b.rotationKeyframes.getD (frame % b.rotationKeyframes.length) 1 * b.scaleKeyframes.getD (frame % b.scaleKeyframes.length) 1 } := by
  induction bones generalizing bones' i with
  | nil => simp at hb
  | cons b0 bs ih =>
    simp only [updateLocalPoses, Option.pure_def, Option.bind_eq_bind, Option.bind_eq_some,
      Option.some.injEq] at hup
    obtain ⟨t, ht, r, hr, s, hs, rest, hrest, hcons⟩ := hup
    have hT : b0.translationKeyframes.length ≠ 0 := by
      intro h0; rw [keyAt, dif_pos h0] at ht; exact Option.noConfusion ht
    have hR : b0.rotationKeyframes.length ≠ 0 := by
      intro h0; rw [keyAt, dif_pos h0] at hr; exact Option.noConfusion hr
    have hS : b0.scaleKeyframes.length ≠ 0 := by
      intro h0; rw [keyAt, dif_pos h0] at hs; exact Option.noConfusion hs
    rw [keyAt_eq_getD _ _ hT, Option.some.injEq] at ht
    rw [keyAt_eq_getD _ _ hR, Option.some.injEq] at hr
    rw [keyAt_eq_getD _ _ hS, Option.some.injEq] at hs
    subst ht hr hs
    cases i with
    | zero =>
      simp only [List.get?, Option.some.injEq] at hb
      subst hb
      subst hcons
      simp only [List.get?]
    | succ i =>
      subst hcons
      simp only [List.get?] at hb ⊢
      exact ih rest hrest i hb

theorem updateLocalPoses_length (frame : Nat) (bones bones' : List Bone)
    (hup : updateLocalPoses frame bones = some bones') : bones'.length = bones.length := by
  induction bones generalizing bones' with
  | nil => simp [updateLocalPoses] at hup; simp [← hup]
  | cons b0 bs ih =>
    simp only [updateLocalPoses, Option.pure_def, Option.bind_eq_bind, Option.bind_eq_some,
      Option.some.injEq] at hup
    obtain ⟨t, _, r, _, s, _, rest, hrest, hcons⟩ := hup
    subst hcons
    simp [ih rest hrest]

theorem chainWalk_none (bones : List Bone) (fuel : Nat) (acc : Mat4) :
    chainWalk bones fuel none acc = acc := by
  cases fuel <;> rfl

theorem chainWalk_factor (bones : List Bone) (fuel : Nat) (p : Option Nat) (acc : Mat4) :
    chainWalk bones fuel p acc = chainWalk bones fuel p 1 * acc := by
  induction fuel generalizing p acc with
  | zero => simp [chainWalk]
  | succ fuel ih =>
    cases p with
    | none => simp [chainWalk]
    | some j =>
      simp only [chainWalk]
      rw [ih (parentOf bones j) (posedOf bones j * acc), ih (parentOf bones j) (posedOf bones j * 1)]
      rw [mul_one, mul_assoc]

theorem chainWalk_stable (bones : List Bone) (f : Nat) (p : Option Nat)
    (hterm : chainTerminates bones f p = true) :
    ∀ g, f ≤ g → ∀ acc, chainWalk bones g p acc = chainWalk bones f p acc := by
  induction f generalizing p with
  | zero =>
    cases p with
    | none => intro g _ acc; rw [chainWalk_none, chainWalk_none]
    | some j => simp [chainTerminates] at hterm
  | succ f ih =>
    cases p with
    | none => intro g _ acc; rw [chainWalk_none, chainWalk_none]
    | some j =>
      intro g hg acc
      obtain ⟨g', rfl⟩ : ∃ g', g = g' + 1 := ⟨g - 1, by omega⟩
      simp only [chainWalk]
      exact ih (parentOf bones j) hterm g' (by omega) _

/-! ## Claim theorems -/

/-- C2: for every bone at every frame, pose evaluation sets the bone's
local posed transform to
`translationKeyframes[frame % lenT] * rotationKeyframes[frame % lenR] *
scaleKeyframes[frame % lenS]`, each modulo taken against that sequence's
own length, in this left-to-right multiplication order. -/
theorem claim2_local_pose_composition (frame : Nat) (bones bones' : List Bone)
    (hup : updateLocalPoses frame bones = some bones') (i : Nat) (b : Bone)
    (hb : bones.get? i = some b) :
    bones'.get? i = some { b with posedTransform := b.translationKeyframes.getD (frame % b.translationKeyframes.length) 1 * b.rotationKeyframes.getD (frame % b.rotationKeyframes.length) 1 * b.scaleKeyframes.getD (frame % b.scaleKeyframes.length) 1 } :=
  updateLocalPoses_get? frame bones bones' hup i b hb

/-- Witness for C2 on a one-bone list with singleton keyframe tracks. -/
theorem claim2_witness :
    updateLocalPoses 5 [{ initBone with translationKeyframes := [1], rotationKeyframes := [1], scaleKeyframes := [1] }] = some [{ initBone with translationKeyframes := [1], rotationKeyframes := [1], scaleKeyframes := [1], posedTransform := (1 : Mat4) * 1 * 1 }] ∧
    [{ initBone with translationKeyframes := [1], rotationKeyframes := [1], scaleKeyframes := [1], posedTransform := (1 : Mat4) * 1 * 1 }].get? 0 = some { { initBone with translationKeyframes := [1], rotationKeyframes := [1], scaleKeyframes := [1] } with posedTransform := [(1 : Mat4)].getD (5 % [(1 : Mat4)].length) 1 * [(1 : Mat4)].getD (5 % [(1 : Mat4)].length) 1 * [(1 : Mat4)].getD (5 % [(1 : Mat4)].length) 1 } :=
  ⟨rfl, claim2_local_pose_composition 5 [{ initBone with translationKeyframes := [1], rotationKeyframes := [1], scaleKeyframes := [1] }] [{ initBone with translationKeyframes := [1], rotationKeyframes := [1], scaleKeyframes := [1], posedTransform := (1 : Mat4) * 1 * 1 }] rfl 0 { initBone with translationKeyframes := [1], rotationKeyframes := [1], scaleKeyframes := [1] } rfl⟩

/-- C8: if every bone's three keyframe sequences have the same length L,
the pose evaluation at `frame + L` equals the one at `frame` (the
bone-transforms array in particular). -/
theorem claim8_periodicity (bones : List Bone) (frame L : Nat)
    (hL : ∀ b ∈ bones, b.translationKeyframes.length = L ∧
      b.rotationKeyframes.length = L ∧ b.scaleKeyframes.length = L) :
    updateAnimation (frame + L) bones = updateAnimation frame bones := by
  have key : ∀ bs : List Bone, (∀ b ∈ bs, b.translationKeyframes.length = L ∧
      b.rotationKeyframes.length = L ∧ b.scaleKeyframes.length = L) →
      updateLocalPoses (frame + L) bs = updateLocalPoses frame bs := by
    intro bs
    induction bs with
    | nil => intro _; rfl
    | cons b rest ih =>
      intro hbs
      obtain ⟨h1, h2, h3⟩ := hbs b (List.mem_cons_self b rest)
      have ih' := ih fun b' hb' => hbs b' (List.mem_cons_of_mem b hb')
      simp only [updateLocalPoses, keyAt_add_length _ _ _ h1, keyAt_add_length _ _ _ h2,
        keyAt_add_length _ _ _ h3, ih']
  unfold updateAnimation
  rw [key bones hL]

/-- Witness for C8: one bone, all three tracks of length 1. -/
theorem claim8_witness :
    updateAnimation (7 + 1) [{ initBone with translationKeyframes := [1], rotationKeyframes := [1], scaleKeyframes := [1] }] = updateAnimation 7 [{ initBone with translationKeyframes := [1], rotationKeyframes := [1], scaleKeyframes := [1] }] :=
  claim8_periodicity _ 7 1 (by intro b hb; simp at hb; subst hb; exact ⟨rfl, rfl, rfl⟩)

/-- C9: an animation channel or a hierarchy node whose name matches no
mesh bone is silently skipped: the channel-loop iteration returns the
bone list unchanged, and the hierarchy walk at such a node modifies no
bone and passes the carried ancestor unchanged to its children. -/
theorem claim9_unmatched_name_skipped (mesh : List AiBone) (bones : List Bone)
    (ch : AiNodeAnim) (name : String) (children : List AiNode) (parent : Option Nat)
    (hch : findNamedBone mesh ch.mNodeName < 0)
    (hnd : findNamedBone mesh name < 0) :
    bindChannel mesh bones ch = bones ∧
    loadSkeletonNode mesh (.mk name children) parent bones =
      loadSkeletonNodes mesh children parent bones := by
  constructor
  · rw [bindChannel, if_pos hch]
  · simp only [loadSkeletonNode]
    rw [if_neg (by omega)]

/-- Witness for C9 with an empty bone list and channel/node named "X". -/
theorem claim9_witness :
    bindChannel [] [] { mNodeName := "X", mPositionKeys := [], mRotationKeys := [], mScalingKeys := [] } = [] ∧
    loadSkeletonNode [] (.mk "X" []) none [] = loadSkeletonNodes [] [] none [] :=
  claim9_unmatched_name_skipped [] [] _ "X" [] none (by decide) (by decide)

/-- C10: the slot scan of the weight assigner stops at index 3 at the
latest, so every slot write stays inside the fixed 4-slot arrays; when
all four slots are already populated (a fifth or later influence), the
scan yields 3 and the write overwrites slot 3 in place. -/
theorem claim10_slot_scan_bounded (ids : Fin 4 → Int) :
    scanSlot ids 0 ≤ 3 ∧
    ((∀ e : Fin 4, 0 ≤ ids e) → scanSlot ids 0 = 3) ∧
    (∀ a : Int, writeSlot ids 3 a 3 = a) := by
  have h3 : scanSlot ids 3 = 3 := by rw [scanSlot, dif_neg (by omega)]
  have h2 : scanSlot ids 2 = if ids ⟨2, by omega⟩ < 0 then 2 else scanSlot ids 3 := by
    rw [scanSlot, dif_pos (by omega)]
  have h1 : scanSlot ids 1 = if ids ⟨1, by omega⟩ < 0 then 1 else scanSlot ids 2 := by
    rw [scanSlot, dif_pos (by omega)]
  have h0 : scanSlot ids 0 = if ids ⟨0, by omega⟩ < 0 then 0 else scanSlot ids 1 := by
    rw [scanSlot, dif_pos (by omega)]
  refine ⟨?_, ?_, ?_⟩
  · rw [h0]
    by_cases c0 : ids ⟨0, by omega⟩ < 0
    · rw [if_pos c0]; omega
    · rw [if_neg c0, h1]
      by_cases c1 : ids ⟨1, by omega⟩ < 0
      · rw [if_pos c1]; omega
      · rw [if_neg c1, h2]
        by_cases c2 : ids ⟨2, by omega⟩ < 0
        · rw [if_pos c2]; omega
        · rw [if_neg c2, h3]
  · intro hpos
    rw [h0, if_neg (Int.not_lt.mpr (hpos _)), h1, if_neg (Int.not_lt.mpr (hpos _)),
      h2, if_neg (Int.not_lt.mpr (hpos _)), h3]
  · intro a
    have : ((3 : Fin 4) : Nat) = 3 := rfl
    simp [writeSlot, this]

/-- Witness for C10 on a fully populated slot vector. -/
theorem claim10_witness :
    (0 : Nat) ≤ 3 ∧ scanSlot (fun _ => 7) 0 = 3 ∧ writeSlot (fun _ => (7 : Int)) 3 9 3 = 9 :=
  ⟨Nat.zero_le 3, (claim10_slot_scan_bounded fun _ => 7).2.1 (fun _ => by omega),
    (claim10_slot_scan_bounded fun _ => 7).2.2 9⟩

/-- C3 (code-bug evidence): a mesh bone matched by no animation channel
keeps its three keyframe sequences empty after loading completes — the
load performs no identity-keyframe normalization — and pose evaluation
on the loaded data fails (the source would compute `frameIndex % 0`,
undefined behavior, modelled as `none`). -/
theorem claim3_unanimated_bone_tracks_empty :
    ((loadedBones [{ mName := "A", mOffsetMatrix := 1, mWeights := [] }] [] (.mk "RootNode" [])).map fun b => (b.translationKeyframes.length, b.rotationKeyframes.length, b.scaleKeyframes.length)) = [(0, 0, 0)] ∧
    (updateAnimation 0 (loadedBones [{ mName := "A", mOffsetMatrix := 1, mWeights := [] }] [] (.mk "RootNode" []))).isNone = true := by
  exact ⟨rfl, rfl⟩

/-- C4 as stated is false: a scene with no animation does not abort with
the importer diagnostic — the source reads `mAnimations[0]` with no
count check (undefined behavior, not an exit). -/
theorem claim4_counterexample :
    (loadModel (some { mMeshes := [{ mVertices := [], mNormals := [], mFaces := [], mBones := [] }], mAnimations := [], mRootNode := .mk "RootNode" [] }) "diagnostic").isExitFailure = false := rfl

/-- C4 amended: only a failed import aborts startup with the importer's
diagnostic and a non-zero exit.  A scene with no mesh does not abort
(the mesh block is skipped and the later unchecked first-mesh accesses
are undefined behavior), and a scene with no animation does not abort
(the unchecked `mAnimations[0]` read is undefined behavior). -/
theorem claim4_amended_load_fatal (err : String) (scene : AiScene) :
    loadModel none err = .exitFailure ("Failed to load model:\n" ++ err) ∧
    (scene.mMeshes = [] → loadModel (some scene) err = .undefinedAccess) ∧
    (scene.mAnimations = [] → loadModel (some scene) err = .undefinedAccess) := by
  refine ⟨rfl, ?_, ?_⟩
  · intro h
    simp only [loadModel, h, List.head?]
  · intro h
    simp only [loadModel, h]
    cases scene.mMeshes.head? <;> simp [List.head?]

/-- Witness for C4 (amended) at an import failure and an empty scene. -/
theorem claim4_witness :
    loadModel none "e" = .exitFailure ("Failed to load model:\n" ++ "e") ∧
    loadModel (some { mMeshes := [], mAnimations := [], mRootNode := .mk "R" [] }) "e" = .undefinedAccess :=
  ⟨(claim4_amended_load_fatal "e" { mMeshes := [], mAnimations := [], mRootNode := .mk "R" [] }).1,
    (claim4_amended_load_fatal "e" { mMeshes := [], mAnimations := [], mRootNode := .mk "R" [] }).2.1 rfl⟩

/-- C1: after pose evaluation, a parentless bone's model-space posed
transform equals its local posed transform; a bone with parent `p` has
model-space posed transform equal to the parent's model-space posed
transform times its own local posed transform; and the bone-transforms
array entry is the model-space posed transform times the inverse bind
matrix.  The termination hypothesis is the spec's acyclic-forest
invariant (without it the source's `while (parent)` loop does not
terminate). -/
theorem claim1_model_space_transforms (frame : Nat) (bones bones' : List Bone) (ts : List Mat4)
    (hup : updateAnimation frame bones = some (bones', ts)) (i : Nat) (hi : i < bones'.length)
    (hterm : chainTerminates bones' bones'.length (some i) = true) :
    (parentOf bones' i = none → modelTransform bones' i = posedOf bones' i) ∧
    (∀ p, parentOf bones' i = some p →
      modelTransform bones' i = modelTransform bones' p * posedOf bones' i) ∧
    ts.get? i = some (modelTransform bones' i * ((bones'.get? i).map Bone.inverseBindMatrix).getD 1) := by
  simp only [updateAnimation, Option.pure_def, Option.bind_eq_bind, Option.bind_eq_some,
    Option.some.injEq, Prod.mk.injEq] at hup
  obtain ⟨b2, hb2, hbones', hts⟩ := hup
  rw [hbones'] at hb2 hts
  subst hts
  refine ⟨?_, ?_, ?_⟩
  · intro hnone
    rw [modelTransform, hnone, chainWalk_none]
  · intro p hp
    obtain ⟨m, hm⟩ : ∃ m, bones'.length = m + 1 := ⟨bones'.length - 1, by omega⟩
    rw [hm] at hterm
    have htermp : chainTerminates bones' m (some p) = true := by
      have : chainTerminates bones' m (parentOf bones' i) = true := hterm
      rwa [hp] at this
    obtain ⟨m', hm'⟩ : ∃ m', m = m' + 1 := by
      cases m with
      | zero => simp [chainTerminates] at htermp
      | succ m' => exact ⟨m', rfl⟩
    have htermq : chainTerminates bones' m' (parentOf bones' p) = true := by
      rw [hm'] at htermp; exact htermp
    have hL : modelTransform bones' i =
        chainWalk bones' m' (parentOf bones' p) 1 * (posedOf bones' p * posedOf bones' i) := by
      rw [modelTransform, hm, hp]
      simp only [chainWalk]
      rw [chainWalk_stable bones' m' (parentOf bones' p) htermq m (by omega),
        chainWalk_factor]
    have hR : modelTransform bones' p = chainWalk bones' m' (parentOf bones' p) 1 * posedOf bones' p := by
      rw [modelTransform,
        chainWalk_stable bones' m' (parentOf bones' p) htermq bones'.length (by omega),
        chainWalk_factor]
    rw [hL, hR, mul_assoc]
  · rw [List.get?_eq_getElem?, List.getElem?_map, List.getElem?_range hi]
    rfl

/-- Witness for C1: a root bone and a child bone, singleton identity
tracks, evaluated at frame 0. -/
theorem claim1_witness :
    (parentOf [{ initBone with translationKeyframes := [1], rotationKeyframes := [1], scaleKeyframes := [1], posedTransform := (1 : Mat4) * 1 * 1 }, { initBone with parent := some 0, translationKeyframes := [1], rotationKeyframes := [1], scaleKeyframes := [1], posedTransform := (1 : Mat4) * 1 * 1 }] 1 = none → modelTransform [{ initBone with translationKeyframes := [1], rotationKeyframes := [1], scaleKeyframes := [1], posedTransform := (1 : Mat4) * 1 * 1 }, { initBone with parent := some 0, translationKeyframes := [1], rotationKeyframes := [1], scaleKeyframes := [1], posedTransform := (1 : Mat4) * 1 * 1 }] 1 = posedOf [{ initBone with translationKeyframes := [1], rotationKeyframes := [1], scaleKeyframes := [1], posedTransform := (1 : Mat4) * 1 * 1 }, { initBone with parent := some 0, translationKeyframes := [1], rotationKeyframes := [1], scaleKeyframes := [1], posedTransform := (1 : Mat4) * 1 * 1 }] 1) ∧
    (∀ p, parentOf [{ initBone with translationKeyframes := [1], rotationKeyframes := [1], scaleKeyframes := [1], posedTransform := (1 : Mat4) * 1 * 1 }, { initBone with parent := some 0, translationKeyframes := [1], rotationKeyframes := [1], scaleKeyframes := [1], posedTransform := (1 : Mat4) * 1 * 1 }] 1 = some p → modelTransform [{ initBone with translationKeyframes := [1], rotationKeyframes := [1], scaleKeyframes := [1], posedTransform := (1 : Mat4) * 1 * 1 }, { initBone with parent := some 0, translationKeyframes := [1], rotationKeyframes := [1], scaleKeyframes := [1], posedTransform := (1 : Mat4) * 1 * 1 }] 1 = modelTransform [{ initBone with translationKeyframes := [1], rotationKeyframes := [1], scaleKeyframes := [1], posedTransform := (1 : Mat4) * 1 * 1 }, { initBone with parent := some 0, translationKeyframes := [1], rotationKeyframes := [1], scaleKeyframes := [1], posedTransform := (1 : Mat4) * 1 * 1 }] p * posedOf [{ initBone with translationKeyframes := [1], rotationKeyframes := [1], scaleKeyframes := [1], posedTransform := (1 : Mat4) * 1 * 1 }, { initBone with parent := some 0, translationKeyframes := [1], rotationKeyframes := [1], scaleKeyframes := [1], posedTransform := (1 : Mat4) * 1 * 1 }] 1) ∧
    ((List.range 2).map fun k => modelTransform [{ initBone with translationKeyframes := [1], rotationKeyframes := [1], scaleKeyframes := [1], posedTransform := (1 : Mat4) * 1 * 1 }, { initBone with parent := some 0, translationKeyframes := [1], rotationKeyframes := [1], scaleKeyframes := [1], posedTransform := (1 : Mat4) * 1 * 1 }] k * (([{ initBone with translationKeyframes := [1], rotationKeyframes := [1], scaleKeyframes := [1], posedTransform := (1 : Mat4) * 1 * 1 }, { initBone with parent := some 0, translationKeyframes := [1], rotationKeyframes := [1], scaleKeyframes := [1], posedTransform := (1 : Mat4) * 1 * 1 }].get? k).map Bone.inverseBindMatrix).getD 1).get? 1 = some (modelTransform [{ initBone with translationKeyframes := [1], rotationKeyframes := [1], scaleKeyframes := [1], posedTransform := (1 : Mat4) * 1 * 1 }, { initBone with parent := some 0, translationKeyframes := [1], rotationKeyframes := [1], scaleKeyframes := [1], posedTransform := (1 : Mat4) * 1 * 1 }] 1 * (([{ initBone with translationKeyframes := [1], rotationKeyframes := [1], scaleKeyframes := [1], posedTransform := (1 : Mat4) * 1 * 1 }, { initBone with parent := some 0, translationKeyframes := [1], rotationKeyframes := [1], scaleKeyframes := [1], posedTransform := (1 : Mat4) * 1 * 1 }].get? 1).map Bone.inverseBindMatrix).getD 1) :=
  claim1_model_space_transforms 0
    [{ initBone with translationKeyframes := [1], rotationKeyframes := [1], scaleKeyframes := [1] }, { initBone with parent := some 0, translationKeyframes := [1], rotationKeyframes := [1], scaleKeyframes := [1] }]
    [{ initBone with translationKeyframes := [1], rotationKeyframes := [1], scaleKeyframes := [1], posedTransform := (1 : Mat4) * 1 * 1 }, { initBone with parent := some 0, translationKeyframes := [1], rotationKeyframes := [1], scaleKeyframes := [1], posedTransform := (1 : Mat4) * 1 * 1 }]
    ((List.range 2).map fun k => modelTransform [{ initBone with translationKeyframes := [1], rotationKeyframes := [1], scaleKeyframes := [1], posedTransform := (1 : Mat4) * 1 * 1 }, { initBone with parent := some 0, translationKeyframes := [1], rotationKeyframes := [1], scaleKeyframes := [1], posedTransform := (1 : Mat4) * 1 * 1 }] k * (([{ initBone with translationKeyframes := [1], rotationKeyframes := [1], scaleKeyframes := [1], posedTransform := (1 : Mat4) * 1 * 1 }, { initBone with parent := some 0, translationKeyframes := [1], rotationKeyframes := [1], scaleKeyframes := [1], posedTransform := (1 : Mat4) * 1 * 1 }].get? k).map Bone.inverseBindMatrix).getD 1)
    rfl 1 (by decide) rfl

/-- C7: pose evaluation is idempotent — evaluating again at the same
frame index from the already-evaluated bone data returns the same bone
data and the bit-identical bone-transforms array. -/
theorem claim7_idempotent (frame : Nat) (bones bones' : List Bone) (ts : List Mat4)
    (hup : updateAnimation frame bones = some (bones', ts)) :
    updateAnimation frame bones' = some (bones', ts) := by
  have idem : ∀ bs bs' : List Bone, updateLocalPoses frame bs = some bs' →
      updateLocalPoses frame bs' = some bs' := by
    intro bs
    induction bs with
    | nil =>
      intro bs' h
      simp only [updateLocalPoses, Option.some.injEq] at h
      subst h
      rfl
    | cons b rest ih =>
      intro bs' h
      simp only [updateLocalPoses, Option.pure_def, Option.bind_eq_bind, Option.bind_eq_some,
        Option.some.injEq] at h
      obtain ⟨t, ht, r, hr, s, hs, rest', hrest', hcons⟩ := h
      subst hcons
      have ih' := ih rest' hrest'
      simp only [updateLocalPoses, Option.pure_def, Option.bind_eq_bind]
      cases b
      simp only at ht hr hs ⊢
      rw [ht, hr, hs, ih']
      rfl
  simp only [updateAnimation, Option.pure_def, Option.bind_eq_bind, Option.bind_eq_some,
    Option.some.injEq, Prod.mk.injEq] at hup
  obtain ⟨b2, hb2, hbones', hts⟩ := hup
  rw [hbones'] at hb2 hts
  subst hts
  simp only [updateAnimation, Option.pure_def, Option.bind_eq_bind, idem bones bones' hb2]
  rfl

/-- Witness for C7 on a one-bone list with singleton identity tracks. -/
theorem claim7_witness :
    updateAnimation 4 [{ initBone with translationKeyframes := [1], rotationKeyframes := [1], scaleKeyframes := [1], posedTransform := (1 : Mat4) * 1 * 1 }] = some ([{ initBone with translationKeyframes := [1], rotationKeyframes := [1], scaleKeyframes := [1], posedTransform := (1 : Mat4) * 1 * 1 }], (List.range 1).map fun k => modelTransform [{ initBone with translationKeyframes := [1], rotationKeyframes := [1], scaleKeyframes := [1], posedTransform := (1 : Mat4) * 1 * 1 }] k * (([{ initBone with translationKeyframes := [1], rotationKeyframes := [1], scaleKeyframes := [1], posedTransform := (1 : Mat4) * 1 * 1 }].get? k).map Bone.inverseBindMatrix).getD 1) :=
  claim7_idempotent 4
    [{ initBone with translationKeyframes := [1], rotationKeyframes := [1], scaleKeyframes := [1] }]
    [{ initBone with translationKeyframes := [1], rotationKeyframes := [1], scaleKeyframes := [1], posedTransform := (1 : Mat4) * 1 * 1 }]
    ((List.range 1).map fun k => modelTransform [{ initBone with translationKeyframes := [1], rotationKeyframes := [1], scaleKeyframes := [1], posedTransform := (1 : Mat4) * 1 * 1 }] k * (([{ initBone with translationKeyframes := [1], rotationKeyframes := [1], scaleKeyframes := [1], posedTransform := (1 : Mat4) * 1 * 1 }].get? k).map Bone.inverseBindMatrix).getD 1)
    rfl

theorem findNamedBoneAux_eq_ofNat (name : String) (mesh : List AiBone) :
    ∀ (i k : Nat), findNamedBoneAux name i mesh = (k : Int) →
      i ≤ k ∧ ∃ b, mesh.get? (k - i) = some b ∧ b.mName = name := by
  induction mesh with
  | nil =>
    intro i k h
    simp only [findNamedBoneAux] at h
    exact absurd h (by omega)
  | cons b bs ih =>
    intro i k h
    simp only [findNamedBoneAux] at h
    by_cases hn : b.mName = name
    · rw [if_pos hn] at h
      have : i = k := by omega
      subst this
      exact ⟨Nat.le_refl i, b, by simp, hn⟩
    · rw [if_neg hn] at h
      obtain ⟨hik, b', hb', hname⟩ := ih (i + 1) k h
      refine ⟨by omega, b', ?_, hname⟩
      have : k - i = (k - (i + 1)) + 1 := by omega
      rw [this]
      simpa using hb'

theorem findNamedBone_name (mesh : List AiBone) (name : String) (k : Nat)
    (h : findNamedBone mesh name = (k : Int)) :
    ∃ b, mesh.get? k = some b ∧ b.mName = name := by
  obtain ⟨_, b, hb, hname⟩ := findNamedBoneAux_eq_ofNat name mesh 0 k h
  exact ⟨b, by simpa using hb, hname⟩

theorem setParent_length (bones : List Bone) (j : Nat) (p : Option Nat) :
    (setParent bones j p).length = bones.length :=
  modifyAt_length bones j _

mutual

theorem loadSkeletonNode_length (mesh : List AiBone) (n : AiNode) (parent : Option Nat)
    (bones : List Bone) : (loadSkeletonNode mesh n parent bones).length = bones.length := by
  cases n with
  | mk name children =>
    simp only [loadSkeletonNode]
    by_cases h : 0 ≤ findNamedBone mesh name
    · rw [if_pos h, loadSkeletonNodes_length, setParent_length]
    · rw [if_neg h, loadSkeletonNodes_length]

theorem loadSkeletonNodes_length (mesh : List AiBone) (ns : List AiNode) (parent : Option Nat)
    (bones : List Bone) : (loadSkeletonNodes mesh ns parent bones).length = bones.length := by
  cases ns with
  | nil => rfl
  | cons n rest =>
    simp only [loadSkeletonNodes]
    rw [loadSkeletonNodes_length, loadSkeletonNode_length]

end

mutual

theorem nearestBoneAncestor_eq_none (mesh : List AiBone) (n : AiNode) (anc : Option Nat)
    (target : String) :
    nearestBoneAncestor mesh n anc target = none ↔ countName n target = 0 := by
  cases n with
  | mk name children =>
    simp only [nearestBoneAncestor, countName]
    by_cases h : name = target
    · simp [h]
    · rw [if_neg h, if_neg h]
      rw [nearestBoneAncestorList_eq_none]
      omega

theorem nearestBoneAncestorList_eq_none (mesh : List AiBone) (ns : List AiNode) (anc : Option Nat)
    (target : String) :
    nearestBoneAncestorList mesh ns anc target = none ↔ countNameList ns target = 0 := by
  cases ns with
  | nil => simp [nearestBoneAncestorList, countNameList]
  | cons n rest =>
    simp only [nearestBoneAncestorList, countNameList]
    cases hn : nearestBoneAncestor mesh n anc target with
    | some p =>
      have : ¬ countName n target = 0 := by
        rw [← nearestBoneAncestor_eq_none mesh n anc target, hn]
        simp
      simp only []
      constructor
      · intro hc; exact Option.noConfusion hc
      · intro hc; omega
    | none =>
      have hc : countName n target = 0 := (nearestBoneAncestor_eq_none mesh n anc target).mp hn
      rw [nearestBoneAncestorList_eq_none]
      omega

end

mutual

theorem skelNode_untouched (mesh : List AiBone) (i : Nat) (target : String) (bi : AiBone)
    (hbi : mesh.get? i = some bi) (hbiname : bi.mName = target)
    (n : AiNode) (hc : countName n target = 0) (parent : Option Nat) (bones : List Bone) :
    (loadSkeletonNode mesh n parent bones).get? i = bones.get? i := by
  cases n with
  | mk name children =>
    by_cases he : name = target
    · rw [countName, if_pos he] at hc
      exact absurd hc (by omega)
    · rw [countName, if_neg he] at hc
      have cc : countNameList children target = 0 := by omega
      simp only [loadSkeletonNode]
      by_cases hpos : 0 ≤ findNamedBone mesh name
      · rw [if_pos hpos,
          skelNodes_untouched mesh i target bi hbi hbiname children cc _ _]
        apply modifyAt_get?_ne
        intro heq
        have hof : findNamedBone mesh name = (i : Int) := by
          rw [heq]
          exact (Int.toNat_of_nonneg hpos).symm
        obtain ⟨b, hb, hbname⟩ := findNamedBone_name mesh name i hof
        have hbeq : bi = b := by
          have := hbi.symm.trans hb
          injection this
        exact he (by rw [← hbname, ← hbeq, hbiname])
      · rw [if_neg hpos]
        exact skelNodes_untouched mesh i target bi hbi hbiname children cc _ _

theorem skelNodes_untouched (mesh : List AiBone) (i : Nat) (target : String) (bi : AiBone)
    (hbi : mesh.get? i = some bi) (hbiname : bi.mName = target)
    (ns : List AiNode) (hc : countNameList ns target = 0) (parent : Option Nat)
    (bones : List Bone) :
    (loadSkeletonNodes mesh ns parent bones).get? i = bones.get? i := by
  cases ns with
  | nil => rfl
  | cons n rest =>
    simp only [countNameList] at hc
    have c1 : countName n target = 0 := by omega
    have c2 : countNameList rest target = 0 := by omega
    simp only [loadSkeletonNodes]
    rw [skelNodes_untouched mesh i target bi hbi hbiname rest c2 _ _,
      skelNode_untouched mesh i target bi hbi hbiname n c1 _ _]

end

mutual

theorem skelNode_assigns (mesh : List AiBone) (i : Nat) (target : String) (bi : AiBone)
    (hbi : mesh.get? i = some bi) (hbiname : bi.mName = target)
    (hfind : findNamedBone mesh target = (i : Int))
    (n : AiNode) (hc : countName n target = 1) (parent : Option Nat) (bones : List Bone)
    (hlen : i < bones.length) :
    getParent? (loadSkeletonNode mesh n parent bones) i =
      nearestBoneAncestor mesh n parent target := by
  cases n with
  | mk name children =>
    by_cases he : name = target
    · rw [countName, if_pos he] at hc
      have cc : countNameList children target = 0 := by omega
      have hfn : findNamedBone mesh name = (i : Int) := by rw [he]; exact hfind
      simp only [loadSkeletonNode, nearestBoneAncestor]
      rw [if_pos he, if_pos (by rw [hfn]; exact Int.natCast_nonneg i)]
      have htn : (findNamedBone mesh name).toNat = i := by rw [hfn]; simp
      rw [getParent?, skelNodes_untouched mesh i target bi hbi hbiname children cc _ _, htn,
        setParent, modifyAt_get?_eq]
      rw [List.get?_eq_get hlen]
      rfl
    · rw [countName, if_neg he] at hc
      have cc : countNameList children target = 1 := by omega
      simp only [loadSkeletonNode, nearestBoneAncestor]
      rw [if_neg he]
      by_cases hpos : 0 ≤ findNamedBone mesh name
      · rw [if_pos hpos, if_pos hpos]
        exact skelNodes_assigns mesh i target bi hbi hbiname hfind children cc _ _
          (by rw [setParent_length]; exact hlen)
      · rw [if_neg hpos, if_neg hpos]
        exact skelNodes_assigns mesh i target bi hbi hbiname hfind children cc _ _ hlen

theorem skelNodes_assigns (mesh : List AiBone) (i : Nat) (target : String) (bi : AiBone)
    (hbi : mesh.get? i = some bi) (hbiname : bi.mName = target)
    (hfind : findNamedBone mesh target = (i : Int))
    (ns : List AiNode) (hc : countNameList ns target = 1) (parent : Option Nat)
    (bones : List Bone) (hlen : i < bones.length) :
    getParent? (loadSkeletonNodes mesh ns parent bones) i =
      nearestBoneAncestorList mesh ns parent target := by
  cases ns with
  | nil => exact absurd hc (by simp [countNameList])
  | cons n rest =>
    simp only [countNameList] at hc
    have hsplit : (countName n target = 1 ∧ countNameList rest target = 0) ∨
        (countName n target = 0 ∧ countNameList rest target = 1) := by omega
    simp only [loadSkeletonNodes, nearestBoneAncestorList]
    rcases hsplit with ⟨c1, c0⟩ | ⟨c0, c1⟩
    · obtain ⟨p, hp⟩ : ∃ p, nearestBoneAncestor mesh n parent target = some p := by
        cases hcase : nearestBoneAncestor mesh n parent target with
        | none =>
          have := (nearestBoneAncestor_eq_none mesh n parent target).mp hcase
          omega
        | some p => exact ⟨p, rfl⟩
      rw [hp]
      have hstep : getParent? (loadSkeletonNodes mesh rest parent
          (loadSkeletonNode mesh n parent bones)) i =
          getParent? (loadSkeletonNode mesh n parent bones) i := by
        rw [getParent?, getParent?,
          skelNodes_untouched mesh i target bi hbi hbiname rest c0 _ _]
      rw [hstep, skelNode_assigns mesh i target bi hbi hbiname hfind n c1 parent bones hlen, hp]
    · have hnone : nearestBoneAncestor mesh n parent target = none :=
        (nearestBoneAncestor_eq_none mesh n parent target).mpr c0
      rw [hnone]
      exact skelNodes_assigns mesh i target bi hbi hbiname hfind rest c1 _ _
        (by rw [loadSkeletonNode_length]; exact hlen)

end

theorem bindChannel_getParent? (mesh : List AiBone) (bones : List Bone) (ch : AiNodeAnim)
    (i : Nat) : getParent? (bindChannel mesh bones ch) i = getParent? bones i := by
  rw [bindChannel]
  by_cases h : findNamedBone mesh ch.mNodeName < 0
  · rw [if_pos h]
  · rw [if_neg h, getParent?, getParent?]
    by_cases hi : i = (findNamedBone mesh ch.mNodeName).toNat
    · subst hi
      rw [modifyAt_get?_eq]
      cases mesh_get : bones.get? (findNamedBone mesh ch.mNodeName).toNat <;> rfl
    · rw [modifyAt_get?_ne _ _ _ _ hi]

theorem loadChannels_getParent? (mesh : List AiBone) (channels : List AiNodeAnim)
    (bones : List Bone) (i : Nat) :
    getParent? (loadChannels mesh channels bones) i = getParent? bones i := by
  induction channels generalizing bones with
  | nil => rfl
  | cons ch rest ih =>
    rw [loadChannels, List.foldl_cons, ← loadChannels, ih, bindChannel_getParent?]

theorem bindChannel_length (mesh : List AiBone) (bones : List Bone) (ch : AiNodeAnim) :
    (bindChannel mesh bones ch).length = bones.length := by
  rw [bindChannel]
  by_cases h : findNamedBone mesh ch.mNodeName < 0
  · rw [if_pos h]
  · rw [if_neg h, modifyAt_length]

theorem loadChannels_length (mesh : List AiBone) (channels : List AiNodeAnim)
    (bones : List Bone) : (loadChannels mesh channels bones).length = bones.length := by
  induction channels generalizing bones with
  | nil => rfl
  | cons ch rest ih =>
    rw [loadChannels, List.foldl_cons, ← loadChannels, ih, bindChannel_length]

theorem loadBones_getParent? (mesh : List AiBone) (i : Nat) (hi : i < mesh.length) :
    getParent? (loadBones mesh) i = some none := by
  rw [getParent?, loadBones, List.get?_eq_getElem?, List.getElem?_map,
    List.getElem?_eq_getElem hi]
  rfl

/-- C5: after the skeleton build, a mesh bone whose name occurs at
exactly one node reachable from the root has its parent set to the
nearest named-bone ancestor carried into that node by the depth-first
walk (non-bone nodes are transparent), and a mesh bone whose name occurs
at no reachable node keeps its initialized parent of `none` (a root
bone).  `hfind` states that the bone is the one name lookup resolves to
(automatic when bone names are distinct); with duplicate node names the
spec's "the nearest named-bone ancestor" is not well defined, so the
matched case is stated for a uniquely named node. -/
theorem claim5_skeleton_parents (meshBones : List AiBone) (channels : List AiNodeAnim)
    (root : AiNode) (i : Nat) (bi : AiBone) (hbi : meshBones.get? i = some bi)
    (hfind : findNamedBone meshBones bi.mName = (i : Int)) :
    (countName root bi.mName = 0 →
      getParent? (loadedBones meshBones channels root) i = some none) ∧
    (countName root bi.mName = 1 →
      getParent? (loadedBones meshBones channels root) i =
        nearestBoneAncestor meshBones root none bi.mName) := by
  have hil : i < meshBones.length := by
    by_contra hcon
    rw [List.get?_eq_getElem?, List.getElem?_eq_none (by omega)] at hbi
    exact Option.noConfusion hbi
  have hlen0 : i < (loadChannels meshBones channels (loadBones meshBones)).length := by
    rw [loadChannels_length, loadBones, List.length_map]
    exact hil
  have hpar0 : getParent? (loadChannels meshBones channels (loadBones meshBones)) i =
      some none := by
    rw [loadChannels_getParent?, loadBones_getParent? meshBones i hil]
  constructor
  · intro h0
    rw [loadedBones, getParent?,
      skelNode_untouched meshBones i bi.mName bi hbi rfl root h0 none _]
    exact hpar0
  · intro h1
    rw [loadedBones]
    exact skelNode_assigns meshBones i bi.mName bi hbi rfl hfind root h1 none _ hlen0

/-- Witness for C5: bones "R" and "A", node chain Scene → R → A; bone
"A" (index 1) receives parent bone 0, as the nearest-ancestor function
computes. -/
theorem claim5_witness :
    getParent? (loadedBones [{ mName := "R", mOffsetMatrix := 1, mWeights := [] }, { mName := "A", mOffsetMatrix := 1, mWeights := [] }] [] (.mk "Scene" [.mk "R" [.mk "A" []]])) 1 = nearestBoneAncestor [{ mName := "R", mOffsetMatrix := 1, mWeights := [] }, { mName := "A", mOffsetMatrix := 1, mWeights := [] }] (.mk "Scene" [.mk "R" [.mk "A" []]]) none "A" :=
  (claim5_skeleton_parents
    [{ mName := "R", mOffsetMatrix := 1, mWeights := [] }, { mName := "A", mOffsetMatrix := 1, mWeights := [] }]
    [] (.mk "Scene" [.mk "R" [.mk "A" []]]) 1
    { mName := "A", mOffsetMatrix := 1, mWeights := [] } rfl rfl).2 rfl

theorem scanSlot_stop (ids : Fin 4 → Int) : scanSlot ids 3 = 3 := by
  rw [scanSlot, dif_neg (by omega)]

theorem scanSlot_two (ids : Fin 4 → Int) :
    scanSlot ids 2 = if ids ⟨2, by omega⟩ < 0 then 2 else scanSlot ids 3 := by
  rw [scanSlot, dif_pos (by omega)]

theorem scanSlot_one (ids : Fin 4 → Int) :
    scanSlot ids 1 = if ids ⟨1, by omega⟩ < 0 then 1 else scanSlot ids 2 := by
  rw [scanSlot, dif_pos (by omega)]

theorem scanSlot_zero (ids : Fin 4 → Int) :
    scanSlot ids 0 = if ids ⟨0, by omega⟩ < 0 then 0 else scanSlot ids 1 := by
  rw [scanSlot, dif_pos (by omega)]

theorem scanSlot_finds (ids : Fin 4 → Int) (k : Nat) (hk : k ≤ 3)
    (hlow : ∀ e : Fin 4, e.val < k → 0 ≤ ids e)
    (hhigh : ∀ e : Fin 4, e.val = k → ids e < 0) :
    scanSlot ids 0 = k := by
  interval_cases k
  · rw [scanSlot_zero, if_pos (hhigh ⟨0, by omega⟩ rfl)]
  · rw [scanSlot_zero, if_neg (Int.not_lt.mpr (hlow ⟨0, by omega⟩ (by decide))),
      scanSlot_one, if_pos (hhigh ⟨1, by omega⟩ rfl)]
  · rw [scanSlot_zero, if_neg (Int.not_lt.mpr (hlow ⟨0, by omega⟩ (by decide))),
      scanSlot_one, if_neg (Int.not_lt.mpr (hlow ⟨1, by omega⟩ (by decide))),
      scanSlot_two, if_pos (hhigh ⟨2, by omega⟩ rfl)]
  · rw [scanSlot_zero, if_neg (Int.not_lt.mpr (hlow ⟨0, by omega⟩ (by decide))),
      scanSlot_one, if_neg (Int.not_lt.mpr (hlow ⟨1, by omega⟩ (by decide))),
      scanSlot_two, if_neg (Int.not_lt.mpr (hlow ⟨2, by omega⟩ (by decide))),
      scanSlot_stop]

theorem foldl_inner_map (i : Nat) (ws : List AiVertexWeight) (vs : List Vertex) :
    ws.foldl (fun vs' w => assignVertexWeight i w vs') vs =
      (ws.map fun w => (i, w)).foldl (fun l t => assignVertexWeight t.1 t.2 l) vs := by
  induction ws generalizing vs with
  | nil => rfl
  | cons w rest ih => simp only [List.map_cons, List.foldl_cons, ih]

theorem assignBoneWeights_eq_triples (meshBones : List AiBone) (verts : List Vertex) :
    assignBoneWeights meshBones verts =
      (boneWeightTriples meshBones).foldl (fun l t => assignVertexWeight t.1 t.2 l) verts := by
  rw [assignBoneWeights, boneWeightTriples]
  generalize meshBones.enum = l
  induction l generalizing verts with
  | nil => rfl
  | cons iw rest ih =>
    simp only [List.foldl_cons, List.foldr_cons]
    rw [List.foldl_append, ih, foldl_inner_map]

theorem slotsMatch_step (xs : List (Nat × ℚ)) (pv : Vertex) (i : Nat) (q : ℚ)
    (hm : slotsMatch xs pv) (hlenx : xs.length ≤ 3) :
    scanSlot pv.boneIds 0 = xs.length ∧
    slotsMatch (xs ++ [(i, q)]) { pv with boneIds := writeSlot pv.boneIds xs.length (Int.ofNat i), boneWeights := writeSlot pv.boneWeights xs.length q } := by
  have hscan : scanSlot pv.boneIds 0 = xs.length := by
    apply scanSlot_finds pv.boneIds xs.length hlenx
    · intro e he
      obtain ⟨pr, hpr⟩ : ∃ pr, xs.get? e.val = some pr := by
        cases hc : xs.get? e.val with
        | none =>
          rw [List.get?_eq_none] at hc
          omega
        | some pr => exact ⟨pr, rfl⟩
      rw [((hm e).1 pr hpr).1]
      exact Int.natCast_nonneg pr.1
    · intro e he
      have hnone : xs.get? e.val = none := List.get?_eq_none.mpr (by omega)
      rw [((hm e).2 hnone).1]
      omega
  refine ⟨hscan, ?_⟩
  intro e
  constructor
  · intro pr hpr
    rcases Nat.lt_trichotomy e.val xs.length with hlt | heq | hgt
    · rw [List.get?_append hlt] at hpr
      have := (hm e).1 pr hpr
      simp only [writeSlot]
      rw [if_neg (by omega), if_neg (by omega)]
      exact this
    · have : (xs ++ [(i, q)]).get? e.val = some (i, q) := by
        rw [List.get?_append_right (by omega), heq, Nat.sub_self]
        rfl
      rw [this] at hpr
      cases hpr
      simp only [writeSlot]
      rw [if_pos heq, if_pos heq]
      exact ⟨rfl, rfl⟩
    · rw [List.get?_eq_none.mpr (by simp; omega)] at hpr
      exact Option.noConfusion hpr
  · intro hnone
    rw [List.get?_eq_none] at hnone
    simp only [List.length_append, List.length_cons, List.length_nil] at hnone
    have hne : ¬ e.val = xs.length := by omega
    have hxs : xs.get? e.val = none := List.get?_eq_none.mpr (by omega)
    have := (hm e).2 hxs
    simp only [writeSlot]
    rw [if_neg hne, if_neg hne]
    exact this

theorem assignVertexWeight_length (i : Nat) (w : AiVertexWeight) (verts : List Vertex) :
    (assignVertexWeight i w verts).length = verts.length := by
  rw [assignVertexWeight, modifyAt_length]

theorem assignTriples_spec (ts : List (Nat × AiVertexWeight)) :
    ∀ (vs : List Vertex) (acc : Nat → List (Nat × ℚ)),
      (∀ t ∈ ts, t.2.mVertexId < vs.length) →
      (∀ v : Nat, v < vs.length → ∀ pv, vs.get? v = some pv → slotsMatch (acc v) pv) →
      (∀ v : Nat, v < vs.length → (acc v).length + (influencesOfList ts v).length ≤ 4) →
      ∀ v : Nat, v < vs.length → ∀ pv',
        (ts.foldl (fun l t => assignVertexWeight t.1 t.2 l) vs).get? v = some pv' →
        slotsMatch (acc v ++ influencesOfList ts v) pv' := by
  induction ts with
  | nil =>
    intro vs acc hvalid hmatch hcap v hv pv' hget
    simp only [List.foldl_nil] at hget
    simpa [influencesOfList] using hmatch v hv pv' hget
  | cons t rest ih =>
    intro vs acc hvalid hmatch hcap v hv pv' hget
    simp only [List.foldl_cons] at hget
    have hvidlt : t.2.mVertexId < vs.length := hvalid t (List.mem_cons_self t rest)
    obtain ⟨pv, hpv⟩ : ∃ pv, vs.get? t.2.mVertexId = some pv :=
      ⟨_, List.get?_eq_get hvidlt⟩
    have hmPv : slotsMatch (acc t.2.mVertexId) pv := hmatch t.2.mVertexId hvidlt pv hpv
    have hlenacc : (acc t.2.mVertexId).length ≤ 3 := by
      have hc := hcap t.2.mVertexId hvidlt
      rw [influencesOfList, if_pos rfl] at hc
      simp only [List.length_cons] at hc
      omega
    obtain ⟨hscan, hnew⟩ := slotsMatch_step (acc t.2.mVertexId) pv t.1 t.2.mWeight hmPv hlenacc
    have hassign : (assignVertexWeight t.1 t.2 vs).get? t.2.mVertexId = some { pv with boneIds := writeSlot pv.boneIds (acc t.2.mVertexId).length (Int.ofNat t.1), boneWeights := writeSlot pv.boneWeights (acc t.2.mVertexId).length t.2.mWeight } := by
      rw [assignVertexWeight, modifyAt_get?_eq, hpv]
      simp only [Option.map_some']
      rw [hscan]
    have hconv : acc v ++ influencesOfList (t :: rest) v =
        (if t.2.mVertexId = v then acc v ++ [(t.1, t.2.mWeight)] else acc v) ++
          influencesOfList rest v := by
      by_cases h : t.2.mVertexId = v
      · rw [influencesOfList, if_pos h, if_pos h, List.append_assoc]
        rfl
      · rw [influencesOfList, if_neg h, if_neg h]
    rw [hconv]
    apply ih (assignVertexWeight t.1 t.2 vs)
      (fun u => if t.2.mVertexId = u then acc u ++ [(t.1, t.2.mWeight)] else acc u)
    · intro t' ht'
      rw [assignVertexWeight_length]
      exact hvalid t' (List.mem_cons_of_mem t ht')
    · intro u hu pv2 hpv2
      rw [assignVertexWeight_length] at hu
      by_cases h : t.2.mVertexId = u
      · subst h
        rw [hassign] at hpv2
        cases hpv2
        rw [if_pos rfl]
        exact hnew
      · rw [assignVertexWeight] at hpv2
        rw [modifyAt_get?_ne _ _ _ _ (fun he => h he.symm)] at hpv2
        rw [if_neg h]
        exact hmatch u hu pv2 hpv2
    · intro u hu
      rw [assignVertexWeight_length] at hu
      have hc := hcap u hu
      by_cases h : t.2.mVertexId = u
      · rw [if_pos h]
        rw [influencesOfList, if_pos h, List.length_cons] at hc
        simp only [List.length_append, List.length_cons, List.length_nil]
        omega
      · rw [if_neg h]
        rw [influencesOfList, if_neg h] at hc
        exact hc
    · rw [assignVertexWeight_length]
      exact hv
    · exact hget

/-- C6: for a mesh in which every vertex is affected by at most 4 bones
(and whose weight records point at existing vertices), the weight
assigner fills each vertex's slots left to right: after processing, the
first slots hold exactly the (bone index, weight) pairs affecting the
vertex in import order — each triple landed in the first slot still
holding the sentinel -1, receiving the bone's own index and the parallel
weight — and every remaining slot still holds -1 with weight 0. -/
theorem claim6_weight_assignment (meshBones : List AiBone) (verts : List Vertex)
    (hinit : ∀ pv ∈ verts, (∀ e, pv.boneIds e = -1) ∧ (∀ e, pv.boneWeights e = 0))
    (hvalid : ∀ t ∈ boneWeightTriples meshBones, t.2.mVertexId < verts.length)
    (hcap : ∀ v : Nat, v < verts.length → (influencesOn meshBones v).length ≤ 4) :
    ∀ (v : Nat) (pv' : Vertex), v < verts.length →
      (assignBoneWeights meshBones verts).get? v = some pv' →
      slotsMatch (influencesOn meshBones v) pv' := by
  intro v pv' hv hget
  rw [assignBoneWeights_eq_triples] at hget
  have hmain := assignTriples_spec (boneWeightTriples meshBones) verts (fun _ => []) hvalid
    ?_ ?_ v hv pv' hget
  · simpa [influencesOn] using hmain
  · intro u hu pv hpv
    intro e
    refine ⟨?_, ?_⟩
    · intro pr hpr
      exact Option.noConfusion hpr
    · intro _
      obtain ⟨h1, h2⟩ := hinit pv (List.get?_mem hpv)
      exact ⟨h1 e, h2 e⟩
  · intro u hu
    simpa [influencesOn] using hcap u hu

/-- Witness for C6: one bone affecting the single vertex with weight 1. -/
theorem claim6_witness :
    slotsMatch (influencesOn [{ mName := "B", mOffsetMatrix := 1, mWeights := [{ mVertexId := 0, mWeight := 1 }] }] 0) { position := ((0 : ℚ), (0 : ℚ), (0 : ℚ)), normal := ((0 : ℚ), (0 : ℚ), (0 : ℚ)), boneIds := writeSlot (fun _ => -1) (scanSlot (fun _ => (-1 : Int)) 0) (Int.ofNat 0), boneWeights := writeSlot (fun _ => 0) (scanSlot (fun _ => (-1 : Int)) 0) 1 } :=
  claim6_weight_assignment
    [{ mName := "B", mOffsetMatrix := 1, mWeights := [{ mVertexId := 0, mWeight := 1 }] }]
    [{ position := ((0 : ℚ), (0 : ℚ), (0 : ℚ)), normal := ((0 : ℚ), (0 : ℚ), (0 : ℚ)), boneIds := fun _ => -1, boneWeights := fun _ => 0 }]
    (by
      intro pv hpv
      rw [List.mem_singleton] at hpv
      subst hpv
      exact ⟨fun e => rfl, fun e => rfl⟩)
    (by
      intro t ht
      have : t = (0, { mVertexId := 0, mWeight := 1 }) := by
        simpa [boneWeightTriples, List.enum] using ht
      rw [this]
      exact Nat.zero_lt_one)
    (by
      intro v hv
      have hv0 : v = 0 := by simpa using hv
      subst hv0
      simp [influencesOn, influencesOfList, boneWeightTriples, List.enum])
    0
    { position := ((0 : ℚ), (0 : ℚ), (0 : ℚ)), normal := ((0 : ℚ), (0 : ℚ), (0 : ℚ)), boneIds := writeSlot (fun _ => -1) (scanSlot (fun _ => (-1 : Int)) 0) (Int.ofNat 0), boneWeights := writeSlot (fun _ => 0) (scanSlot (fun _ => (-1 : Int)) 0) 1 }
    Nat.zero_lt_one rfl

end Poser
